import Mathlib

/-!
Shallow embedding of the restaurant-bot data stores (`models/menu.py`,
`models/orders.py`, `config.py`) and of the quantity-entry step of the
order-taking conversation flow (`handlers/order_handlers.py`), together
with theorems settling the specification claims about them.

File I/O (JSON persistence) is abstracted away: `save_menu` / `save_orders`
write the in-memory collection out unchanged, so store operations are
modelled as pure functions on the in-memory lists, and `load_orders` is
modelled on the already-decoded list of records.
-/

/-! ### config.py -/

/-- Embeds `TABLE_COUNT = 11` from `config.py`. -/
def TABLE_COUNT : Int := 11

/-- Embeds `MENU_CATEGORIES` from `config.py`, as an association list in the
dictionary's insertion order. -/
def MENU_CATEGORIES : List (String × List String) :=
  [("Кухня", ["Закуски", "Гарниры", "Горячее", "Десерты", "Салаты"]),
   ("Бар", ["Коктейли", "Алкоголь", "Пиво", "Лимонады", "Чай"])]

/-- Embeds `MAIN_CATEGORIES` from `config.py`. -/
def MAIN_CATEGORIES : List String := ["Кухня", "Бар"]

/-- Embeds `ALL_CATEGORIES` from `config.py`: the subcategory lists concatenated. -/
def ALL_CATEGORIES : List String := (MENU_CATEGORIES.map Prod.snd).flatten

/-! ### models/menu.py -/

/-- A menu item (`MenuItem` in `models/menu.py`); `main_category` is always a
string once the object exists (the constructor fills it in). -/
structure MenuItem where
  id : Int
  name : String
  category : String
  main_category : String
deriving DecidableEq, Repr

/-- Embeds `MenuItem._determine_main_category`: first main category whose subcategory
list contains `category`, defaulting to "Кухня". -/
def determine_main_category (category : String) : String :=
  match MENU_CATEGORIES.find? (fun p => p.2.contains category) with
  | some p => p.1
  | none => "Кухня"

/-- Embeds `MenuItem.__init__`: when `main_category` is `None` it is derived from
`category`. -/
def MenuItem.make (id : Int) (name category : String)
    (main_category : Option String) : MenuItem :=
  { id := id, name := name, category := category,
    main_category := main_category.getD (determine_main_category category) }

/-- The dictionary shape of a persisted menu record; `main_category` is read
with `.get`, hence optional on input. -/
structure MenuItemRecord where
  id : Int
  name : String
  category : String
  main_category : Option String
deriving DecidableEq, Repr

/-- Embeds `MenuItem.from_dict`. -/
def MenuItem.from_dict (r : MenuItemRecord) : MenuItem :=
  MenuItem.make r.id r.name r.category r.main_category

/-- Embeds `MenuItem.to_dict`. -/
def MenuItem.to_dict (i : MenuItem) : MenuItemRecord :=
  { id := i.id, name := i.name, category := i.category,
    main_category := some i.main_category }

/-- Python's `max(xs, default=0)`: the maximum element, or `0` when the list
is empty. -/
def maxDefaultZero (l : List Int) : Int :=
  match l.max? with
  | some m => m
  | none => 0

/-- Embeds `MenuManager.add_item`: new id is `max(existing ids, default=0) + 1`; the
item is appended and returned. -/
def MenuManager.add_item (items : List MenuItem) (name category : String)
    (main_category : Option String) : MenuItem × List MenuItem :=
  let new_id := maxDefaultZero (items.map (·.id)) + 1
  let item := MenuItem.make new_id name category main_category
  (item, items ++ [item])

/-- Embeds `MenuManager.delete_item`: removes the first item with the given id,
returning whether one was found. -/
def MenuManager.delete_item (item_id : Int) : List MenuItem → Bool × List MenuItem
  | [] => (false, [])
  | i :: rest =>
    if i.id = item_id then (true, rest)
    else
      let r := MenuManager.delete_item item_id rest
      (r.1, i :: r.2)

/-- An order line (`OrderItem` in `models/orders.py`). -/
structure OrderItem where
  menu_item : MenuItem
  quantity : Int
deriving DecidableEq, Repr

/-- An order (`Order` in `models/orders.py`). -/
structure Order where
  id : Int
  table_number : Int
  items : List OrderItem
  timestamp : String
  is_active : Bool
deriving DecidableEq, Repr

/-- Embeds `Order.__init__`: `items or []` replaces a missing (or empty) list with
`[]`, and `timestamp or now` replaces a missing or empty string with the
current time (`now`, passed explicitly since the embedding is pure). -/
def Order.make (id table_number : Int) (items : Option (List OrderItem))
    (timestamp : Option String) (now : String) (is_active : Bool) : Order :=
  { id := id, table_number := table_number,
    items := items.getD [],
    timestamp :=
      match timestamp with
      | none => now
      | some s => if s = "" then now else s,
    is_active := is_active }

/-- The dictionary shape of a persisted order line. -/
structure OrderItemRecord where
  menu_item : MenuItemRecord
  quantity : Int
deriving DecidableEq, Repr

/-- The dictionary shape of a persisted order. -/
structure OrderRecord where
  id : Int
  table_number : Int
  items : List OrderItemRecord
  timestamp : String
  is_active : Bool
deriving DecidableEq, Repr

/-- Embeds `OrderItem.from_dict`. -/
def OrderItem.from_dict (r : OrderItemRecord) : OrderItem :=
  { menu_item := MenuItem.from_dict r.menu_item, quantity := r.quantity }

/-- Embeds `OrderItem.to_dict`. -/
def OrderItem.to_dict (x : OrderItem) : OrderItemRecord :=
  { menu_item := x.menu_item.to_dict, quantity := x.quantity }

/-- Embeds `Order.from_dict` (the constructor may consult `now` if the stored
timestamp is empty). -/
def Order.from_dict (r : OrderRecord) (now : String) : Order :=
  Order.make r.id r.table_number (some (r.items.map OrderItem.from_dict))
    (some r.timestamp) now r.is_active

/-- Embeds `Order.to_dict`. -/
def Order.to_dict (o : Order) : OrderRecord :=
  { id := o.id, table_number := o.table_number,
    items := o.items.map OrderItem.to_dict,
    timestamp := o.timestamp, is_active := o.is_active }

/-- The loop body of `Order.add_item`: increment the quantity of the first
line whose menu item has the given id, else append a fresh line. -/
def addItemToLines (m : MenuItem) (q : Int) : List OrderItem → List OrderItem
  | [] => [{ menu_item := m, quantity := q }]
  | oi :: rest =>
    if oi.menu_item.id = m.id then
      { oi with quantity := oi.quantity + q } :: rest
    else oi :: addItemToLines m q rest

/-- Embeds `Order.add_item`. -/
def Order.add_item (o : Order) (m : MenuItem) (q : Int) : Order :=
  { o with items := addItemToLines m q o.items }

/-- Embeds `OrderManager.load_orders` on an already-decoded list of records:
deserialize each record, then keep only the active orders. -/
def load_orders (records : List OrderRecord) (now : String) : List Order :=
  (records.map (fun r => Order.from_dict r now)).filter (·.is_active)

/-- Embeds `OrderManager.get_order_by_id`: first order with the given id. -/
def get_order_by_id (orders : List Order) (order_id : Int) : Option Order :=
  orders.find? (fun o => o.id == order_id)

/-- Embeds `OrderManager.get_active_orders`. -/
def get_active_orders (orders : List Order) : List Order :=
  orders.filter (·.is_active)

/-- Embeds `OrderManager.get_table_active_order`: first active order for the table. -/
def get_table_active_order (orders : List Order) (table_number : Int) :
    Option Order :=
  orders.find? (fun o => o.table_number == table_number && o.is_active)

/-- Embeds `OrderManager.create_order`: raises `ValueError` outside `[1, TABLE_COUNT]`
(modelled as `Except.error`); returns an existing active order for the table
if there is one; otherwise appends a fresh active order with id
`max(existing ids, default=0) + 1`. -/
def create_order (orders : List Order) (table_number : Int) (now : String) :
    Except String (Order × List Order) :=
  if ¬(1 ≤ table_number ∧ table_number ≤ TABLE_COUNT) then
    .error "Table number must be between 1 and TABLE_COUNT"
  else
    match orders.find? (fun o => o.table_number == table_number && o.is_active) with
    | some o => .ok (o, orders)
    | none =>
      let new_id := maxDefaultZero (orders.map (·.id)) + 1
      let o := Order.make new_id table_number none none now true
      .ok (o, orders ++ [o])

/-- The object mutation `order.is_active = False` inside
`OrderManager.close_order`: it hits the first order with the given id (the
one `get_order_by_id` returned). -/
def deactivateFirst (order_id : Int) : List Order → List Order
  | [] => []
  | o :: rest =>
    if o.id == order_id then { o with is_active := false } :: rest
    else o :: deactivateFirst order_id rest

/-- Embeds `OrderManager.close_order`: if the id is known, deactivate that order and
drop every inactive order from the collection, returning `true`; else
return `false` unchanged. -/
def close_order (orders : List Order) (order_id : Int) : Bool × List Order :=
  match get_order_by_id orders order_id with
  | some _ => (true, (deactivateFirst order_id orders).filter (·.is_active))
  | none => (false, orders)

/-- The object mutation performed through `get_order_by_id` in
`add_item_with_quantity` (`handlers/order_handlers.py`): apply `f` to the
first order with the given id. -/
def updateFirstOrder (order_id : Int) (f : Order → Order) :
    List Order → List Order
  | [] => []
  | o :: rest =>
    if o.id == order_id then f o :: rest
    else o :: updateFirstOrder order_id f rest

/-- The store effect of `add_item_with_quantity`: `order.add_item(item, q)`
on the order found by id, followed by a save. -/
def addLine (orders : List Order) (order_id : Int) (m : MenuItem) (q : Int) :
    List Order :=
  updateFirstOrder order_id (fun o => o.add_item m q) orders

/-! ### Sequences of order-store operations -/

/-- One mutating operation on the order store, as invoked by the handlers. -/
inductive StoreOp where
  | createOrder (table_number : Int) (now : String)
  | addLine (order_id : Int) (m : MenuItem) (q : Int)
  | closeOrder (order_id : Int)
deriving Repr

/-- Apply one operation to the order collection (a raised `ValueError`
leaves the collection as it was). -/
def applyOp (orders : List Order) : StoreOp → List Order
  | .createOrder t now =>
    match create_order orders t now with
    | .ok r => r.2
    | .error _ => orders
  | .addLine oid m q => addLine orders oid m q
  | .closeOrder oid => (close_order orders oid).2

/-- Run a sequence of store operations from an initial collection. -/
def runOps (init : List Order) (ops : List StoreOp) : List Order :=
  ops.foldl applyOp init

/-- The active orders of a given table. -/
def activeForTable (orders : List Order) (t : Int) : List Order :=
  orders.filter (fun o => o.table_number == t && o.is_active)

/-! ### handlers — the dispatch for a message in the quantity-entry state -/

/-- A concrete menu item. -/
def sampleItem : MenuItem :=
  { id := 1, name := "Салат Цезарь", category := "Салаты",
    main_category := "Кухня" }

/-- A second concrete menu item with a larger id. -/
def sampleItem2 : MenuItem :=
  { id := 2, name := "Чай с мятой", category := "Чай", main_category := "Бар" }

/-- A concrete active order for table 5 with no lines. -/
def sampleOrder : Order :=
  { id := 1, table_number := 5, items := [],
    timestamp := "2024-01-01T00:00:00", is_active := true }

/-- A concrete persisted menu record. -/
def sampleMenuRecord : MenuItemRecord :=
  { id := 1, name := "Салат Цезарь", category := "Салаты",
    main_category := some "Кухня" }

/-- A concrete persisted order record. -/
def sampleOrderRecord : OrderRecord :=
  { id := 1, table_number := 5,
    items := [{ menu_item := sampleMenuRecord, quantity := 2 }],
    timestamp := "2024-01-01T00:00:00", is_active := true }

/-! ### Helper lemmas -/

theorem le_foldl_max (xs : List Int) (a b : Int) (h : a ≤ b) :
    a ≤ xs.foldl max b := by
  induction xs generalizing b with
  | nil => simpa using h
  | cons c xs ih =>
    simp only [List.foldl_cons]
    exact ih (max b c) (le_trans h (le_max_left b c))

theorem mem_le_foldl_max (xs : List Int) (a b : Int) (h : a ∈ xs) :
    a ≤ xs.foldl max b := by
  induction xs generalizing b with
  | nil => cases h
  | cons c xs ih =>
    simp only [List.foldl_cons]
    rcases List.mem_cons.mp h with rfl | hmem
    · exact le_foldl_max xs a (max b a) (le_max_right b a)
    · exact ih (max b c) hmem

theorem mem_le_maxDefaultZero (l : List Int) (a : Int) (h : a ∈ l) :
    a ≤ maxDefaultZero l := by
  cases l with
  | nil => cases h
  | cons x xs =>
    simp only [maxDefaultZero, List.max?_cons']
    rcases List.mem_cons.mp h with rfl | hmem
    · exact le_foldl_max xs a a le_rfl
    · exact mem_le_foldl_max xs a x hmem

/-! ### Claim C8 — main-category derivation -/

/-- C8: a `MenuItem` constructed without an explicit `main_category` derives
it from `category` via the static `MENU_CATEGORIES` map; an unmapped category
falls back to "Кухня"; and `add_item("Салат Цезарь", "Салаты")` on an empty
catalog yields id 1 and main category "Кухня". -/
theorem claim_C8 (id : Int) (name category : String) :
    ((MenuItem.make id name category none).main_category
        = determine_main_category category)
    ∧ (∀ cat, (∀ p ∈ MENU_CATEGORIES, cat ∉ p.2) →
        determine_main_category cat = "Кухня")
    ∧ ((MenuManager.add_item [] "Салат Цезарь" "Салаты" none).1.id = 1
        ∧ (MenuManager.add_item [] "Салат Цезарь" "Салаты" none).1.main_category
            = "Кухня") := by
  refine ⟨rfl, ?_, by decide⟩
  intro cat hcat
  have hfind : MENU_CATEGORIES.find? (fun p => p.2.contains cat) = none := by
    rw [List.find?_eq_none]
    intro p hp
    simpa using hcat p hp
  simp only [determine_main_category]
  rw [hfind]

/-- Witness for C8 at a concrete unmapped category. -/
theorem claim_C8_witness : determine_main_category "Пельмени" = "Кухня" :=
  (claim_C8 0 "" "").2.1 "Пельмени" (by decide)

/-! ### Claim C6 — deleteItem on absent vs present ids -/

/-- C6: `delete_item` on an id not present returns `false` and leaves the
catalog exactly unchanged; on a present id it returns `true`. -/
theorem claim_C6 (items : List MenuItem) (item_id : Int) :
    ((∀ i ∈ items, i.id ≠ item_id) →
        MenuManager.delete_item item_id items = (false, items))
    ∧ ((∃ i ∈ items, i.id = item_id) →
        (MenuManager.delete_item item_id items).1 = true) := by
  induction items with
  | nil =>
    exact ⟨fun _ => rfl, fun ⟨i, hi, _⟩ => absurd hi (List.not_mem_nil i)⟩
  | cons i rest ih =>
    constructor
    · intro habs
      have hi : i.id ≠ item_id := habs i (List.mem_cons_self i rest)
      have hrest := ih.1 (fun j hj => habs j (List.mem_cons_of_mem i hj))
      simp [MenuManager.delete_item, hi, hrest]
    · rintro ⟨j, hj, hjid⟩
      rcases List.mem_cons.mp hj with rfl | hjrest
      · simp [MenuManager.delete_item, hjid]
      · by_cases hi : i.id = item_id
        · simp [MenuManager.delete_item, hi]
        · have hrest := ih.2 ⟨j, hjrest, hjid⟩
          simp [MenuManager.delete_item, hi, hrest]

/-- Witness for C6: deleting the absent id 999 from a one-item catalog is a
no-op returning `false`, and deleting the present id 1 returns `true`. -/
theorem claim_C6_witness :
    MenuManager.delete_item 999 [sampleItem] = (false, [sampleItem])
    ∧ (MenuManager.delete_item 1 [sampleItem]).1 = true :=
  ⟨(claim_C6 [sampleItem] 999).1 (by decide),
   (claim_C6 [sampleItem] 1).2 ⟨sampleItem, by simp, by decide⟩⟩

/-! ### Claim C3 — id assignment in addItem -/

/-- C3: `add_item` assigns id 1 on an empty catalog and
`max(existing ids)+1` on a non-empty one; an id strictly below some id still
present in the catalog (in particular the id of a deleted item when a larger
id remains) is never assigned. -/
theorem claim_C3 (items : List MenuItem) (name category : String) :
    ((MenuManager.add_item [] name category none).1.id = 1)
    ∧ (items ≠ [] →
        (MenuManager.add_item items name category none).1.id
          = maxDefaultZero (items.map (·.id)) + 1)
    ∧ (∀ d : Int, (∃ i ∈ items, d < i.id) →
        (MenuManager.add_item items name category none).1.id ≠ d) := by
  refine ⟨rfl, fun _ => rfl, ?_⟩
  rintro d ⟨i, hi, hlt⟩
  have hmem : i.id ∈ items.map (·.id) := List.mem_map_of_mem (·.id) hi
  have hle : i.id ≤ maxDefaultZero (items.map (·.id)) :=
    mem_le_maxDefaultZero _ _ hmem
  have : d < maxDefaultZero (items.map (·.id)) + 1 :=
    lt_of_lt_of_le hlt (le_trans hle (le_of_lt (lt_add_one _)))
  have hne : d ≠ maxDefaultZero (items.map (·.id)) + 1 := ne_of_lt this
  simpa [MenuManager.add_item, MenuItem.make] using hne.symm

/-- Witness for C3: with only id 2 left in the catalog (id 1 deleted), the id
1 is not reassigned, and the empty-catalog id is 1. -/
theorem claim_C3_witness :
    (MenuManager.add_item [sampleItem2] "Пиво" "Пиво" none).1.id ≠ 1
    ∧ (MenuManager.add_item [] "Пиво" "Пиво" none).1.id = 1 :=
  ⟨(claim_C3 [sampleItem2] "Пиво" "Пиво").2.2 1 ⟨sampleItem2, by simp, by decide⟩,
   (claim_C3 [] "Пиво" "Пиво").1⟩

/-! ### Claim C2 — quantity aggregation in Order.add_item -/

theorem addItemToLines_of_not_mem (m : MenuItem) (q : Int) (l : List OrderItem)
    (h : ∀ oi ∈ l, oi.menu_item.id ≠ m.id) :
    addItemToLines m q l = l ++ [{ menu_item := m, quantity := q }] := by
  induction l with
  | nil => rfl
  | cons oi rest ih =>
    have hne : oi.menu_item.id ≠ m.id := h oi (List.mem_cons_self oi rest)
    have hrest := ih (fun j hj => h j (List.mem_cons_of_mem oi hj))
    simp [addItemToLines, hne, hrest]

theorem addItemToLines_append_hit (m : MenuItem) (q1 q2 : Int)
    (l : List OrderItem) (h : ∀ oi ∈ l, oi.menu_item.id ≠ m.id) :
    addItemToLines m q2 (l ++ [{ menu_item := m, quantity := q1 }])
      = l ++ [{ menu_item := m, quantity := q1 + q2 }] := by
  induction l with
  | nil => simp [addItemToLines]
  | cons oi rest ih =>
    have hne : oi.menu_item.id ≠ m.id := h oi (List.mem_cons_self oi rest)
    have hrest := ih (fun j hj => h j (List.mem_cons_of_mem oi hj))
    simp [addItemToLines, hne, hrest]

/-- C2: on an order that does not yet contain menu item `m`, adding `m` with
quantity `q1` appends one fresh line, and adding it again with `q2` leaves
exactly one line for `m`'s id, carrying quantity `q1 + q2` — never two
lines. -/
theorem claim_C2 (o : Order) (m : MenuItem) (q1 q2 : Int)
    (h : ∀ oi ∈ o.items, oi.menu_item.id ≠ m.id) :
    (((o.add_item m q1).add_item m q2).items.filter
        (fun oi => oi.menu_item.id == m.id)).length = 1
    ∧ (∀ oi ∈ ((o.add_item m q1).add_item m q2).items,
        oi.menu_item.id = m.id → oi.quantity = q1 + q2)
    ∧ (o.add_item m q1).items
        = o.items ++ [{ menu_item := m, quantity := q1 }] := by
  have hl1 : (o.add_item m q1).items
      = o.items ++ [{ menu_item := m, quantity := q1 }] :=
    addItemToLines_of_not_mem m q1 o.items h
  have hl2 : ((o.add_item m q1).add_item m q2).items
      = o.items ++ [{ menu_item := m, quantity := q1 + q2 }] := by
    show addItemToLines m q2 (o.add_item m q1).items = _
    rw [hl1]
    exact addItemToLines_append_hit m q1 q2 o.items h
  refine ⟨?_, ?_, hl1⟩
  · rw [hl2, List.filter_append]
    have hnil : o.items.filter (fun oi => oi.menu_item.id == m.id) = [] := by
      rw [List.filter_eq_nil_iff]
      intro oi hoi
      simpa using h oi hoi
    simp [hnil]
  · intro oi hmem _
    rw [hl2] at hmem
    rcases List.mem_append.mp hmem with hin | hone
    · exact absurd ‹oi.menu_item.id = m.id› (h oi hin)
    · rcases List.mem_singleton.mp hone with rfl
      rfl

/-- Witness for C2 on a concrete empty order: adding the same item with
quantities 2 and 3 leaves a single line for its id. -/
theorem claim_C2_witness :
    (((sampleOrder.add_item sampleItem 2).add_item sampleItem 3).items.filter
        (fun oi => oi.menu_item.id == sampleItem.id)).length = 1
    ∧ (∀ oi ∈ ((sampleOrder.add_item sampleItem 2).add_item sampleItem 3).items,
        oi.menu_item.id = sampleItem.id → oi.quantity = 2 + 3) :=
  ⟨(claim_C2 sampleOrder sampleItem 2 3 (by decide)).1,
   (claim_C2 sampleOrder sampleItem 2 3 (by decide)).2.1⟩

/-! ### Claim C7 — serialize/deserialize round-trip -/

theorem menuRecord_roundtrip (r : MenuItemRecord) (h : r.main_category.isSome) :
    (MenuItem.from_dict r).to_dict = r := by
  obtain ⟨s, hs⟩ := Option.isSome_iff_exists.mp h
  cases r
  simp_all [MenuItem.from_dict, MenuItem.make, MenuItem.to_dict]

theorem orderItemRecord_roundtrip (r : OrderItemRecord)
    (h : r.menu_item.main_category.isSome) :
    (OrderItem.from_dict r).to_dict = r := by
  cases r with
  | mk mrec q =>
    have := menuRecord_roundtrip mrec h
    simp [OrderItem.from_dict, OrderItem.to_dict, this]

/-- C7: deserializing a persisted menu record or order record with
`from_dict` and serializing back with `to_dict` reproduces the record field
for field (persisted shape: `main_category` present on every menu record,
a nonempty ISO-8601 `timestamp`). -/
theorem claim_C7 (mr : MenuItemRecord) (orr : OrderRecord) (now : String)
    (hm : mr.main_category.isSome)
    (ho : ∀ ir ∈ orr.items, ir.menu_item.main_category.isSome)
    (ht : orr.timestamp ≠ "") :
    (MenuItem.from_dict mr).to_dict = mr
    ∧ (Order.from_dict orr now).to_dict = orr := by
  refine ⟨menuRecord_roundtrip mr hm, ?_⟩
  cases orr with
  | mk id tn its ts act =>
    simp only at ho ht
    have hitems :
        its.map (fun ir => (OrderItem.from_dict ir).to_dict) = its := by
      induction its with
      | nil => rfl
      | cons ir rest ih =>
        have hhead := orderItemRecord_roundtrip ir
          (ho ir (List.mem_cons_self ir rest))
        have htail := ih (fun j hj => ho j (List.mem_cons_of_mem ir hj))
        simp [hhead, htail]
    simp [Order.from_dict, Order.make, Order.to_dict, List.map_map,
      Function.comp_def, hitems, ht]

/-- Witness for C7 on concrete persisted records. -/
theorem claim_C7_witness :
    (MenuItem.from_dict sampleMenuRecord).to_dict = sampleMenuRecord
    ∧ (Order.from_dict sampleOrderRecord "2026-01-01").to_dict
        = sampleOrderRecord :=
  claim_C7 sampleMenuRecord sampleOrderRecord "2026-01-01"
    (by decide) (by decide) (by decide)

/-! ### Claim C4 — createOrder validation and idempotence -/

theorem create_order_invalid (orders : List Order) (t : Int) (now : String)
    (h : ¬(1 ≤ t ∧ t ≤ TABLE_COUNT)) :
    create_order orders t now
      = .error "Table number must be between 1 and TABLE_COUNT" := by
  simp [create_order, h]

theorem create_order_existing (orders : List Order) (t : Int) (now : String)
    (o : Order) (hv : 1 ≤ t ∧ t ≤ TABLE_COUNT)
    (ho : get_table_active_order orders t = some o) :
    create_order orders t now = .ok (o, orders) := by
  have ho' : orders.find? (fun x => x.table_number == t && x.is_active)
      = some o := ho
  simp [create_order, hv, ho']

theorem create_order_fresh (orders : List Order) (t : Int) (now : String)
    (hv : 1 ≤ t ∧ t ≤ TABLE_COUNT)
    (hnone : get_table_active_order orders t = none) :
    create_order orders t now
      = .ok (Order.make (maxDefaultZero (orders.map (·.id)) + 1) t none none now true,
             orders ++ [Order.make (maxDefaultZero (orders.map (·.id)) + 1) t none none now true]) := by
  have hnone' : orders.find? (fun x => x.table_number == t && x.is_active)
      = none := hnone
  simp [create_order, hv, hnone']

/-- C4: `create_order` raises exactly when the table number is outside
`[1, TABLE_COUNT]`; on a valid table with an existing active order it returns
that order and leaves the collection unchanged; on a valid table without one
it appends and returns a fresh active order for that table. -/
theorem claim_C4 (orders : List Order) (t : Int) (now : String) :
    ((∃ msg, create_order orders t now = .error msg)
        ↔ ¬(1 ≤ t ∧ t ≤ TABLE_COUNT))
    ∧ (∀ o, 1 ≤ t → t ≤ TABLE_COUNT →
        get_table_active_order orders t = some o →
        create_order orders t now = .ok (o, orders))
    ∧ (1 ≤ t → t ≤ TABLE_COUNT →
        get_table_active_order orders t = none →
        ∃ newO, create_order orders t now = .ok (newO, orders ++ [newO])
          ∧ newO.is_active = true ∧ newO.table_number = t) := by
  refine ⟨?_, ?_, ?_⟩
  · constructor
    · rintro ⟨msg, hmsg⟩ hv
      cases hfind : orders.find? (fun x => x.table_number == t && x.is_active) with
      | some o => rw [create_order_existing orders t now o hv hfind] at hmsg; cases hmsg
      | none => rw [create_order_fresh orders t now hv hfind] at hmsg; cases hmsg
    · intro hv
      exact ⟨_, create_order_invalid orders t now hv⟩
  · intro o h1 h2 ho
    exact create_order_existing orders t now o ⟨h1, h2⟩ ho
  · intro h1 h2 hnone
    refine ⟨_, create_order_fresh orders t now ⟨h1, h2⟩ hnone, rfl, rfl⟩

/-- Witness for C4: creating for table 5 on an empty collection yields a
fresh active order; table 0 is rejected. -/
theorem claim_C4_witness :
    (∃ newO, create_order [] 5 "2026-01-01" = .ok (newO, [] ++ [newO])
        ∧ newO.is_active = true ∧ newO.table_number = 5)
    ∧ (∃ msg, create_order [] 0 "2026-01-01" = .error msg) :=
  ⟨(claim_C4 [] 5 "2026-01-01").2.2 (by decide) (by decide) rfl,
   (claim_C4 [] 0 "2026-01-01").1.mpr (by decide)⟩

/-! ### Claim C5 — closeOrder removal semantics -/

theorem close_removed_ids (oid : Int) :
    ∀ (orders : List Order),
      (orders.filter (fun o => o.id == oid)).length ≤ 1 →
      ∀ o ∈ (deactivateFirst oid orders).filter (·.is_active), o.id ≠ oid := by
  intro orders
  induction orders with
  | nil => intro _ o ho; cases ho
  | cons x rest ih =>
    intro huniq o ho
    by_cases hx : x.id = oid
    · have hxb : (x.id == oid) = true := beq_iff_eq.mpr hx
      have hfilter : (x :: rest).filter (fun o => o.id == oid)
          = x :: rest.filter (fun o => o.id == oid) := by
        simp [List.filter_cons, hxb]
      rw [hfilter] at huniq
      have hrest_nil : rest.filter (fun o => o.id == oid) = [] := by
        have : (rest.filter (fun o => o.id == oid)).length = 0 := by
          rw [List.length_cons] at huniq
          omega
        exact List.eq_nil_of_length_eq_zero this
      have hno : ∀ j ∈ rest, j.id ≠ oid := by
        intro j hj hcon
        have : j ∈ rest.filter (fun o => o.id == oid) :=
          List.mem_filter.mpr ⟨hj, beq_iff_eq.mpr hcon⟩
        rw [hrest_nil] at this
        cases this
      have hdeact : deactivateFirst oid (x :: rest)
          = { x with is_active := false } :: rest := by
        simp [deactivateFirst, hxb]
      rw [hdeact] at ho
      have hof : ({ x with is_active := false } :: rest).filter (·.is_active)
          = rest.filter (·.is_active) := by
        simp [List.filter_cons]
      rw [hof] at ho
      exact hno o (List.mem_of_mem_filter ho)
    · have hxb : (x.id == oid) = false := beq_eq_false_iff_ne.mpr hx
      have hdeact : deactivateFirst oid (x :: rest)
          = x :: deactivateFirst oid rest := by
        simp [deactivateFirst, hxb]
      have huniq' : (rest.filter (fun o => o.id == oid)).length ≤ 1 := by
        have : (x :: rest).filter (fun o => o.id == oid)
            = rest.filter (fun o => o.id == oid) := by
          simp [List.filter_cons, hxb]
        rw [this] at huniq
        exact huniq
      rw [hdeact] at ho
      rcases List.mem_filter.mp ho with ⟨hmem, hact⟩
      rcases List.mem_cons.mp hmem with rfl | hmem'
      · exact hx
      · exact ih huniq' o (List.mem_filter.mpr ⟨hmem', hact⟩)

/-- C5: closing a known order id returns `true` and makes the order
unreachable — `get_order_by_id` then yields `none` and it is absent from the
active orders — so a second close returns `false`; closing an unknown id
returns `false` and changes nothing. (The id-uniqueness hypothesis reflects
the store invariant: ids are assigned `max+1`, so no two orders share one.) -/
theorem claim_C5 (orders : List Order) (oid : Int)
    (huniq : (orders.filter (fun o => o.id == oid)).length ≤ 1) :
    ((∃ o ∈ orders, o.id = oid) →
        (close_order orders oid).1 = true
        ∧ get_order_by_id (close_order orders oid).2 oid = none
        ∧ (∀ o ∈ get_active_orders (close_order orders oid).2, o.id ≠ oid)
        ∧ (close_order (close_order orders oid).2 oid).1 = false)
    ∧ ((∀ o ∈ orders, o.id ≠ oid) → close_order orders oid = (false, orders)) := by
  constructor
  · rintro ⟨w, hw, hwid⟩
    have hsome : (get_order_by_id orders oid).isSome := by
      rw [get_order_by_id, List.find?_isSome]
      exact ⟨w, hw, beq_iff_eq.mpr hwid⟩
    obtain ⟨v, hv⟩ := Option.isSome_iff_exists.mp hsome
    have hclosed : close_order orders oid
        = (true, (deactivateFirst oid orders).filter (·.is_active)) := by
      simp [close_order, hv]
    have hall : ∀ o ∈ (deactivateFirst oid orders).filter (·.is_active),
        o.id ≠ oid := close_removed_ids oid orders huniq
    have hnone : get_order_by_id
        ((deactivateFirst oid orders).filter (·.is_active)) oid = none := by
      rw [get_order_by_id, List.find?_eq_none]
      intro o ho
      simpa using hall o ho
    refine ⟨by rw [hclosed], ?_, ?_, ?_⟩
    · rw [hclosed]
      exact hnone
    · rw [hclosed]
      intro o ho
      exact hall o (List.mem_of_mem_filter ho)
    · rw [hclosed]
      simp [close_order, hnone]
  · intro habs
    have hnone : get_order_by_id orders oid = none := by
      rw [get_order_by_id, List.find?_eq_none]
      intro o ho
      simpa using habs o ho
    simp [close_order, hnone]

/-- Witness for C5: closing order id 1 in a one-order collection succeeds and
makes it unreachable; a second close returns `false`. -/
theorem claim_C5_witness :
    (close_order [sampleOrder] 1).1 = true
    ∧ get_order_by_id (close_order [sampleOrder] 1).2 1 = none
    ∧ (close_order (close_order [sampleOrder] 1).2 1).1 = false
    ∧ close_order [sampleOrder] 99 = (false, [sampleOrder]) := by
  have h := (claim_C5 [sampleOrder] 1 (by decide)).1 ⟨sampleOrder, by simp, rfl⟩
  have h99 := (claim_C5 [sampleOrder] 99 (by decide)).2 (by decide)
  exact ⟨h.1, h.2.1, h.2.2.2, h99⟩

/-! ### Claim C1 — at most one active order per table -/

theorem activeForTable_filter_active (t : Int) (l : List Order) :
    activeForTable (l.filter (·.is_active)) t = activeForTable l t := by
  induction l with
  | nil => rfl
  | cons o rest ih =>
    cases ha : o.is_active with
    | false => simp [activeForTable, List.filter_cons, ha] at *
    | true => simp [activeForTable, List.filter_cons, ha] at *

theorem activeForTable_deactivateFirst_le (oid t : Int) (l : List Order) :
    (activeForTable (deactivateFirst oid l) t).length
      ≤ (activeForTable l t).length := by
  induction l with
  | nil => exact le_refl 0
  | cons o rest ih =>
    by_cases hx : (o.id == oid) = true
    · have hd : deactivateFirst oid (o :: rest)
          = { o with is_active := false } :: rest := by
        simp [deactivateFirst, hx]
      rw [hd]
      simp only [activeForTable, List.filter_cons]
      cases hc : (o.table_number == t && o.is_active) <;>
        simp [List.length_cons]
    · have hd : deactivateFirst oid (o :: rest)
          = o :: deactivateFirst oid rest := by
        simp [deactivateFirst, hx]
      rw [hd]
      simp only [activeForTable, List.filter_cons] at *
      cases hc : (o.table_number == t && o.is_active) <;> simp [hc] <;>
        [exact ih; omega]

theorem activeForTable_updateFirstOrder (oid t : Int) (f : Order → Order)
    (hf : ∀ o, (f o).table_number = o.table_number
        ∧ (f o).is_active = o.is_active) (l : List Order) :
    (activeForTable (updateFirstOrder oid f l) t).length
      = (activeForTable l t).length := by
  induction l with
  | nil => rfl
  | cons o rest ih =>
    by_cases hx : (o.id == oid) = true
    · have hd : updateFirstOrder oid f (o :: rest) = f o :: rest := by
        simp [updateFirstOrder, hx]
      rw [hd]
      simp only [activeForTable, List.filter_cons, (hf o).1, (hf o).2]
      cases hc : (o.table_number == t && o.is_active) <;> simp [hc]
    · have hd : updateFirstOrder oid f (o :: rest)
          = o :: updateFirstOrder oid f rest := by
        simp [updateFirstOrder, hx]
      rw [hd]
      simp only [activeForTable, List.filter_cons] at *
      cases hc : (o.table_number == t && o.is_active) <;> simp [hc, ih]

theorem applyOp_preserves_inv (orders : List Order)
    (hinv : ∀ t, (activeForTable orders t).length ≤ 1) (op : StoreOp) :
    ∀ t, (activeForTable (applyOp orders op) t).length ≤ 1 := by
  intro t
  cases op with
  | createOrder tn now =>
    simp only [applyOp]
    by_cases hv : 1 ≤ tn ∧ tn ≤ TABLE_COUNT
    · cases hfind : orders.find?
          (fun o => o.table_number == tn && o.is_active) with
      | some o =>
        rw [create_order_existing orders tn now o hv hfind]
        exact hinv t
      | none =>
        rw [create_order_fresh orders tn now hv hfind]
        by_cases hst : tn = t
        · subst hst
          have hnil : activeForTable orders tn = [] := by
            rw [activeForTable, List.filter_eq_nil_iff]
            intro o ho
            simpa using List.find?_eq_none.mp hfind o ho
          simp only [activeForTable, List.filter_append] at *
          rw [hnil]
          simp [Order.make]
        · have hne : ((Order.make (maxDefaultZero (orders.map (·.id)) + 1)
              tn none none now true).table_number == t) = false := by
            simp [Order.make]
            exact hst
          simp only [activeForTable, List.filter_append]
          rw [List.filter_cons]
          simp only [hne, Bool.false_and]
          simpa [activeForTable] using hinv t
    · rw [create_order_invalid orders tn now hv]
      exact hinv t
  | addLine oid m q =>
    have hlen := activeForTable_updateFirstOrder oid t
      (fun o => o.add_item m q) (fun o => ⟨rfl, rfl⟩) orders
    simpa [applyOp, addLine, hlen] using hinv t
  | closeOrder oid =>
    simp only [applyOp, close_order]
    cases hfind : get_order_by_id orders oid with
    | none => simpa using hinv t
    | some o =>
      simp only
      calc (activeForTable
              ((deactivateFirst oid orders).filter (·.is_active)) t).length
          = (activeForTable (deactivateFirst oid orders) t).length := by
            rw [activeForTable_filter_active]
        _ ≤ (activeForTable orders t).length :=
            activeForTable_deactivateFirst_le oid t orders
        _ ≤ 1 := hinv t

theorem runOps_preserves_inv (ops : List StoreOp) :
    ∀ init, (∀ t, (activeForTable init t).length ≤ 1) →
      ∀ t, (activeForTable (runOps init ops) t).length ≤ 1 := by
  induction ops with
  | nil => intro init h t; exact h t
  | cons op rest ih =>
    intro init h t
    exact ih (applyOp init op) (applyOp_preserves_inv init h op) t

/-- C1: starting from the initial (empty) order collection, after any
sequence of `create_order`, `addLine` and `close_order` operations, every
table has at most one active order. -/
theorem claim_C1 (ops : List StoreOp) (t : Int) :
    (activeForTable (runOps [] ops) t).length ≤ 1 :=
  runOps_preserves_inv ops [] (fun _ => by simp [activeForTable]) t

/-! ### Claim C10 — every stored order is active -/

theorem mem_updateFirstOrder (oid : Int) (f : Order → Order) :
    ∀ (l : List Order) (x : Order), x ∈ updateFirstOrder oid f l →
      x ∈ l ∨ ∃ y ∈ l, x = f y := by
  intro l
  induction l with
  | nil => intro x hx; cases hx
  | cons o rest ih =>
    intro x hx
    by_cases ho : (o.id == oid) = true
    · rw [show updateFirstOrder oid f (o :: rest) = f o :: rest by
        simp [updateFirstOrder, ho]] at hx
      rcases List.mem_cons.mp hx with rfl | hx'
      · exact Or.inr ⟨o, List.mem_cons_self o rest, rfl⟩
      · exact Or.inl (List.mem_cons_of_mem o hx')
    · rw [show updateFirstOrder oid f (o :: rest)
          = o :: updateFirstOrder oid f rest by
        simp [updateFirstOrder, ho]] at hx
      rcases List.mem_cons.mp hx with rfl | hx'
      · exact Or.inl (List.mem_cons_self x rest)
      · rcases ih x hx' with h | ⟨y, hy, hxy⟩
        · exact Or.inl (List.mem_cons_of_mem o h)
        · exact Or.inr ⟨y, List.mem_cons_of_mem o hy, hxy⟩

theorem applyOp_preserves_allActive (orders : List Order)
    (h : ∀ o ∈ orders, o.is_active = true) (op : StoreOp) :
    ∀ o ∈ applyOp orders op, o.is_active = true := by
  cases op with
  | createOrder tn now =>
    simp only [applyOp]
    by_cases hv : 1 ≤ tn ∧ tn ≤ TABLE_COUNT
    · cases hfind : orders.find?
          (fun o => o.table_number == tn && o.is_active) with
      | some o =>
        rw [create_order_existing orders tn now o hv hfind]
        exact h
      | none =>
        rw [create_order_fresh orders tn now hv hfind]
        intro o ho
        rcases List.mem_append.mp ho with hin | hnew
        · exact h o hin
        · rcases List.mem_singleton.mp hnew with rfl
          rfl
    · rw [create_order_invalid orders tn now hv]
      exact h
  | addLine oid m q =>
    intro o ho
    rcases mem_updateFirstOrder oid (fun x => x.add_item m q) orders o ho
      with hin | ⟨y, hy, rfl⟩
    · exact h o hin
    · exact h y hy
  | closeOrder oid =>
    simp only [applyOp, close_order]
    cases hfind : get_order_by_id orders oid with
    | none => exact h
    | some o =>
      intro x hx
      exact (List.mem_filter.mp hx).2

theorem runOps_preserves_allActive (ops : List StoreOp) :
    ∀ init, (∀ o ∈ init, o.is_active = true) →
      ∀ o ∈ runOps init ops, o.is_active = true := by
  induction ops with
  | nil => intro init h; exact h
  | cons op rest ih =>
    intro init h
    exact ih (applyOp init op) (applyOp_preserves_allActive init h op)

/-- C10: after loading (which drops inactive records) and after any sequence
of store operations, every order in the collection is active; hence
`get_active_orders` returns the whole collection and `get_order_by_id` never
returns an inactive order. -/
theorem claim_C10 (records : List OrderRecord) (now : String)
    (ops : List StoreOp) :
    (∀ o ∈ runOps (load_orders records now) ops, o.is_active = true)
    ∧ get_active_orders (runOps (load_orders records now) ops)
        = runOps (load_orders records now) ops
    ∧ (∀ oid o, get_order_by_id (runOps (load_orders records now) ops) oid
        = some o → o.is_active = true) := by
  have hload : ∀ o ∈ load_orders records now, o.is_active = true := by
    intro o ho
    exact (List.mem_filter.mp ho).2
  have hall := runOps_preserves_allActive ops (load_orders records now) hload
  refine ⟨hall, ?_, ?_⟩
  · rw [get_active_orders, List.filter_eq_self]
    intro o ho
    exact hall o ho
  · intro oid o hfind
    exact hall o (List.mem_of_find?_eq_some hfind)

/-- Witness for C10: a one-record collection, loaded and left untouched,
yields an active order under `get_order_by_id`. -/
theorem claim_C10_witness :
    (Order.from_dict sampleOrderRecord "2026-01-01").is_active = true :=
  (claim_C10 [sampleOrderRecord] "2026-01-01" []).2.2 1
    (Order.from_dict sampleOrderRecord "2026-01-01") (by decide)

/-! ### Claim C9 — the quantity-entry step -/

